import Mathlib

/-!
Shallow embedding of the video-generator server (src/server.js and the second
server variant src/unnamed/part_000).  JS strings are modeled as lists of
characters; the JS numbers the claims exercise are modeled as natural numbers.
Each definition carries a note naming the source construct it embeds.
-/

namespace GVG

/-! ## JS string primitives used by the subtitle builder -/

/-- ASCII whitespace test backing the embedding of JS String.trim. -/
def isWS (c : Char) : Bool :=
  c = ' ' || c = '\t' || c = '\n' || c = '\r' || c = '\x0b' || c = '\x0c'

/-- Embedding of JS String.trim: drop whitespace from both ends. -/
def trim (l : List Char) : List Char :=
  ((l.dropWhile isWS).reverse.dropWhile isWS).reverse

/-- Embedding of JS String.split with separator "\n": splitting the empty
string gives one empty piece, and each newline starts a new piece. -/
def splitNL : List Char → List (List Char)
  | [] => [[]]
  | c :: cs =>
    match splitNL cs with
    | [] => [[]]
    | l :: ls => if c = '\n' then [] :: l :: ls else (c :: l) :: ls

/-! ## Subtitle builder (buildSRT in server.js, generateSRT in part_000) -/

/-- The line list of buildSRT:
script.split(backslash-n).map(l =&gt; l.trim()).filter(Boolean). -/
def linesOf (script : List Char) : List (List Char) :=
  ((splitNL script).map trim).filter (fun l => !l.isEmpty)

/-- The uniform per-line span: Math.max(2, Math.floor(dur / lines.length)). -/
def perLine (dur n : Nat) : Nat := max 2 (dur / n)

/-- One subtitle cue: the values the forEach body of buildSRT computes for
line number i (JS index i, displayed index i+1). -/
structure Cue where
  idx : Nat
  start : Nat
  stop : Nat
  text : List Char
deriving DecidableEq

/-- The cue for JS index i: s = i*per, e = Math.min(s + per, dur). -/
def cueAt (p dur i : Nat) (l : List Char) : Cue :=
  ⟨i + 1, i * p, min (i * p + p) dur, l⟩

/-- The forEach loop of buildSRT, carrying the running JS index. -/
def cuesAux (p dur : Nat) : Nat → List (List Char) → List Cue
  | _, [] => []
  | i, l :: ls => cueAt p dur i l :: cuesAux p dur (i + 1) ls

/-- All cues buildSRT enumerates for a script and duration. -/
def cueList (script : List Char) (dur : Nat) : List Cue :=
  cuesAux (perLine dur (linesOf script).length) dur 0 (linesOf script)

/-! ## Timestamp formatting (fmt in server.js, formatTime in part_000) -/

/-- The decimal digit characters that JS String(n) produces. -/
def digitChar (d : Nat) : Char :=
  match d with
  | 0 => '0' | 1 => '1' | 2 => '2' | 3 => '3' | 4 => '4'
  | 5 => '5' | 6 => '6' | 7 => '7' | 8 => '8' | _ => '9'

/-- Numeric value of a decimal digit character. -/
def digitVal (c : Char) : Nat := c.toNat - 48

/-- Fuel-driven decimal printer (structural recursion so the kernel can
evaluate it); with fuel larger than n it prints all digits of n. -/
def natDecAux : Nat → Nat → List Char
  | 0, _ => []
  | f + 1, n => if n < 10 then [digitChar n] else natDecAux f (n / 10) ++ [digitChar (n % 10)]

/-- Embedding of JS String(n) for a natural number n. -/
def natDec (n : Nat) : List Char := natDecAux (n + 1) n

/-- Embedding of JS String.padStart(2, zero-digit). -/
def padTwo (s : List Char) : List Char := List.replicate (2 - s.length) '0' ++ s

/-- fmt(sec): HH:MM:SS,000 with each field padded to two digits and the
milliseconds always zero. -/
def fmt (sec : Nat) : List Char :=
  padTwo (natDec (sec / 3600)) ++ ':' ::
    (padTwo (natDec (sec % 3600 / 60)) ++ ':' ::
      (padTwo (natDec (sec % 60)) ++ ',' :: '0' :: '0' :: '0' :: []))

/-- The timestamp line of a cue block: fmt(s) followed by the arrow and
fmt(e). -/
def timeLineOf (c : Cue) : List Char :=
  fmt c.start ++ ' ' :: '-' :: '-' :: '>' :: ' ' :: fmt c.stop

/-- One serialized cue block: index line, timestamp line, text line, and the
blank separator line, each terminated by a newline. -/
def cueBlock (c : Cue) : List Char :=
  natDec c.idx ++ '\n' :: (timeLineOf c ++ '\n' :: (c.text ++ '\n' :: '\n' :: []))

/-- buildSRT (server.js) / generateSRT (part_000): the concatenation of all
cue blocks. -/
def buildSRT (script : List Char) (dur : Nat) : List Char :=
  ((cueList script dur).map cueBlock).flatten

/-! ## A parser for the produced timed-text output (for the round-trip
claim): blocks of index line, timestamp line, text line, blank line. -/

/-- Take characters up to the first occurrence of a separator character;
none when the separator does not occur. -/
def spanUntil (sep : Char) : List Char → Option (List Char × List Char)
  | [] => none
  | c :: cs =>
    if c = sep then some ([], cs)
    else
      match spanUntil sep cs with
      | some (a, b) => some (c :: a, b)
      | none => none

/-- Numeric value of a decimal digit string (leading zeros allowed). -/
def decToNat (l : List Char) : Nat := l.foldl (fun a c => a * 10 + digitVal c) 0

/-- Parse a timestamp of the produced form HH:MM:SS,000 back to seconds. -/
def parseTime (l : List Char) : Option Nat :=
  match spanUntil ':' l with
  | none => none
  | some (hh, r1) =>
    match spanUntil ':' r1 with
    | none => none
    | some (mm, r2) =>
      match spanUntil ',' r2 with
      | none => none
      | some (ss, r3) =>
        if r3 = ['0', '0', '0'] then
          some (decToNat hh * 3600 + decToNat mm * 60 + decToNat ss)
        else none

/-- Parse a timestamp line of the produced form: start, arrow, stop. -/
def parseTimeLine (l : List Char) : Option (Nat × Nat) :=
  match spanUntil ' ' l with
  | none => none
  | some (a, r) =>
    match r with
    | '-' :: '-' :: '>' :: ' ' :: b =>
      match parseTime a with
      | none => none
      | some s =>
        match parseTime b with
        | none => none
        | some e => some (s, e)
    | _ => none

/-- Parse the line list of a serialized track: repeated four-line blocks,
ending in the single empty piece left by the final newline. -/
def parseCueBlocks : List (List Char) → Option (List Cue)
  | [[]] => some []
  | idxL :: tsL :: textL :: [] :: rest =>
    match parseTimeLine tsL with
    | none => none
    | some (s, e) =>
      match parseCueBlocks rest with
      | none => none
      | some cs => some (⟨decToNat idxL, s, e, textL⟩ :: cs)
  | _ => none

/-- Parse a serialized subtitle track back to its cues. -/
def parseSRT (s : List Char) : Option (List Cue) :=
  parseCueBlocks (splitNL s)

/-! ## Background resolver (getBg in server.js, fetchPexelsVideo in
part_000) -/

/-- The fixed well-known fallback URL appearing in both resolvers. -/
def FALLBACK : List Char :=
  "https://commondatastorage.googleapis.com/gtv-videos-bucket/sample/BigBuckBunny.mp4".data

/-- One possible behaviour of the stock-footage service as seen through the
axios call: the request rejects (network error, timeout, 5xx), the response
body lacks a videos array (so indexing it throws a TypeError inside the try
block), or it carries a videos array, each video carrying its video_files
list whose entries may lack a link. -/
inductive PexelsResult
  | throws
  | malformed
  | ok (videos : List (List (Option (List Char))))
deriving DecidableEq

/-- The optional-chain videos[0]?.video_files[0]?.link. -/
def firstLink : List (List (Option (List Char))) → Option (List Char)
  | [] => none
  | files :: _ =>
    match files with
    | [] => none
    | link :: _ => link

/-- JS truthiness of the chain result: undefined, null and the empty string
are falsy. -/
def jsTruthyStr : Option (List Char) → Bool
  | some l => !l.isEmpty
  | none => false

/-- The videos array carried by a service behaviour that did not throw. -/
def videosOf : PexelsResult → List (List (Option (List Char)))
  | .ok vs => vs
  | _ => []

/-- True when the first list is an initial segment of the second. -/
def leadsWith : List Char → List Char → Bool
  | [], _ => true
  | _ :: _, [] => false
  | p :: ps, c :: cs => p = c && leadsWith ps cs

/-- True when the pattern occurs as a contiguous substring (JS
String.includes). -/
def containsSub (pat l : List Char) : Bool :=
  match l with
  | [] => pat.isEmpty
  | _ :: cs => leadsWith pat l || containsSub pat cs

/-- The query string getBg computes from the style hint. -/
def bgQuery (style : List Char) : List Char :=
  if containsSub "Professional".data style then "tech".data else "nature".data

/-- getBg (server.js): the whole body is inside try/catch; thrown errors
become the fallback, and a falsy resolved link also falls back through the
or-else default. -/
def getBg (style : List Char) (r : PexelsResult) : List Char :=
  match r with
  | .throws => FALLBACK
  | .malformed => FALLBACK
  | .ok videos =>
    let _q := bgQuery style
    let link := firstLink videos
    if jsTruthyStr link then link.getD [] else FALLBACK

/-- fetchPexelsVideo (part_000): same try/catch shape, but the or-else
default of the resolved link is null, so a successful response without a
truthy first link yields null (none) instead of the fallback. -/
def fetchPexelsVideo (_query : List Char) (r : PexelsResult) : Option (List Char) :=
  match r with
  | .throws => some FALLBACK
  | .malformed => some FALLBACK
  | .ok videos =>
    let link := firstLink videos
    if jsTruthyStr link then link else none

/-! ## Narration (TTS) step -/

/-- server.js narration: Buffer.alloc(Math.ceil(duration * 16000 * 2), 0),
an unconditional zero-filled buffer written to tts.wav. -/
def silenceBuffer (duration : Nat) : List Nat :=
  List.replicate (duration * 16000 * 2) 0

/-- Escape of double quotes in the say-command text interpolation of
part_000: text.replace(quote-regex, backslash-quote). -/
def escapeQuotes : List Char → List Char
  | [] => []
  | c :: cs => if c = '"' then '\\' :: '"' :: escapeQuotes cs else c :: escapeQuotes cs

/-- Host platform as process.platform distinguishes it in generateTTS. -/
inductive Platform
  | darwin
  | other
deriving DecidableEq

/-- What generateTTS (part_000) writes to the output file when its shell
command succeeds. -/
inductive TTSFile
  | sayAudio (voiceName escapedText : List Char)
  | textFile (content : List Char)
deriving DecidableEq

/-- generateTTS (part_000): on darwin it runs the say utility (Samantha for
a voice hint containing Female, otherwise Alex); elsewhere it echoes a fixed
text placeholder into the output file; either way an exec error rejects the
promise. -/
def generateTTS (platform : Platform) (text voice : List Char)
    (execErr : Bool) : Except Unit TTSFile :=
  if execErr then .error ()
  else
    .ok (match platform with
      | .darwin =>
        .sayAudio (if containsSub "Female".data voice then "Samantha".data else "Alex".data)
          (escapeQuotes text)
      | .other => .textFile "TTS not supported on this OS\n".data)

/-! ## Subtitle filter argument (burn-subtitles stage) -/

/-- The global single-character replace p.srt.replace of colon by
backslash-colon, scanning left to right. -/
def escapeColons : List Char → List Char
  | [] => []
  | c :: cs => if c = ':' then '\\' :: ':' :: escapeColons cs else c :: escapeColons cs

/-- Inverse reading of the escaping: collapse each backslash-colon pair back
to a colon. -/
def unescapeColons : List Char → List Char
  | [] => []
  | '\\' :: ':' :: cs => ':' :: unescapeColons cs
  | c :: cs => c :: unescapeColons cs

/-- The videoFilters argument of the burn-subtitles invocation: the
subtitles filter applied to the escaped path, followed by the style
options. -/
def subtitlesFilterArg (srtPath styleOpts : List Char) : List Char :=
  "subtitles=".data ++ escapeColons srtPath ++ ":force_style=".data ++ styleOpts

/-! ## Workspace layout and engine invocations -/

/-- The p record of server.js: fixed file names inside the job directory
(path.join with a posix separator). -/
structure WorkFiles where
  bg : List Char
  tts : List Char
  srt : List Char
  vid : List Char
  final : List Char
deriving DecidableEq

/-- server.js workspace file paths. -/
def pFiles (dir : List Char) : WorkFiles :=
  ⟨dir ++ "/bg.mp4".data, dir ++ "/tts.wav".data, dir ++ "/subs.srt".data,
    dir ++ "/video.mp4".data, dir ++ "/final.mp4".data⟩

/-- part_000 workspace file paths (files record: bg, voice.aiff, subs.srt,
temp.mp4, final.mp4). -/
def p0Files (dir : List Char) : WorkFiles :=
  ⟨dir ++ "/bg.mp4".data, dir ++ "/voice.aiff".data, dir ++ "/subs.srt".data,
    dir ++ "/temp.mp4".data, dir ++ "/final.mp4".data⟩

/-- One transcoding-engine invocation: its video input, optional audio
input, and output path. -/
structure EngineCall where
  videoInput : List Char
  audioInput : Option (List Char)
  output : List Char
deriving DecidableEq

/-- Trim stage of server.js: ffmpeg(p.bg) saved to p.vid. -/
def trimCall (dir : List Char) : EngineCall :=
  ⟨(pFiles dir).bg, none, (pFiles dir).vid⟩

/-- Audio-mux stage of server.js: ffmpeg(p.vid).input(p.tts) saved to
p.vid. -/
def muxCall (dir : List Char) : EngineCall :=
  ⟨(pFiles dir).vid, some (pFiles dir).tts, (pFiles dir).vid⟩

/-- Burn-subtitles stage of server.js: ffmpeg(p.vid) saved to p.final. -/
def burnCall (dir : List Char) : EngineCall :=
  ⟨(pFiles dir).vid, none, (pFiles dir).final⟩

/-- Audio-mux stage of part_000: ffmpeg(files.temp).input(files.audio)
saved to files.temp. -/
def muxCallP0 (dir : List Char) : EngineCall :=
  ⟨(p0Files dir).vid, some (p0Files dir).tts, (p0Files dir).vid⟩

/-! ## The generate-video handler (identifier scoping) -/

/-- A well-formed JSON body of the generate-video request, the fields the
handler destructures. -/
structure GenVideoRequest where
  script : List Char
  srt : List Char
  music : List Char
  voice : List Char
  duration : Nat
deriving DecidableEq

/-- The identifiers bound at module level in server.js (its const
declarations and imports). -/
def moduleScope : List String :=
  ["require", "express", "OpenAI", "ffmpeg", "ffmpegStatic", "axios", "fs",
   "path", "uuidv4", "app", "XAI_KEY", "openai", "TEMP", "log", "fmt",
   "buildSRT", "getBg"]

/-- The identifiers the generate-video handler of server.js binds: its
parameters, the destructured body fields, and its local consts. -/
def handlerLocals : List String :=
  ["req", "res", "script", "srt", "music", "voice", "duration", "job", "dir", "p"]

/-- Module-level bindings of part_000 (same shape, different helper
names). -/
def moduleScopeP0 : List String :=
  ["require", "express", "OpenAI", "ffmpeg", "ffmpegStatic", "axios", "fs",
   "path", "uuidv4", "app", "XAI_API_KEY", "openai", "TEMP_DIR", "log",
   "formatTime", "generateSRT", "fetchPexelsVideo", "generateTTS", "PORT"]

/-- Handler-local bindings of part_000 (jobId instead of job, files instead
of p). -/
def handlerLocalsP0 : List String :=
  ["req", "res", "script", "srt", "music", "voice", "duration", "jobId", "dir", "files"]

/-- JS identifier resolution for the handler body: the scope chain is the
handler scope over the module scope. -/
def inScope (locals modScope : List String) (x : String) : Bool :=
  (locals ++ modScope).contains x

/-- Errors a handler run can surface. -/
inductive JsError
  | referenceError (ident : String)
deriving DecidableEq

/-- What the endpoint answers with. -/
inductive HandlerOutcome
  | errorJson (status : Nat) (hasMessageField : Bool)
  | videoStream
deriving DecidableEq

/-- Observable result of one generate-video request: the response, whether
the workspace directory was removed, whether the background download was
ever started, whether headers had been sent when the error was handled, and
the error that was thrown. -/
structure HandlerTrace where
  outcome : HandlerOutcome
  workspaceRemoved : Bool
  downloadStarted : Bool
  headersSentAtError : Bool
  thrown : Option JsError
deriving DecidableEq

/-- One run of the generate-video handler, parameterized by its scopes.
Inside the try block the handler first writes the srt file into the freshly
created workspace (modeled as succeeding for a well-formed body), then
evaluates getBg(style) resp. fetchPexelsVideo(style); evaluating the
identifier style consults the scope chain.  When it is unbound a
ReferenceError is thrown before the axios download, and the catch block
removes the workspace and, headers not having been sent, answers 500 with a
json error message.  Were style bound, the run would continue into the
download and streaming pipeline. -/
def runHandlerWith (locals modScope : List String) (_req : GenVideoRequest) : HandlerTrace :=
  if inScope locals modScope "style" then
    { outcome := .videoStream, workspaceRemoved := true, downloadStarted := true,
      headersSentAtError := false, thrown := none }
  else
    { outcome := .errorJson 500 true, workspaceRemoved := true, downloadStarted := false,
      headersSentAtError := false, thrown := some (.referenceError "style") }

/-- The server.js generate-video handler. -/
def runGenerateVideo (req : GenVideoRequest) : HandlerTrace :=
  runHandlerWith handlerLocals moduleScope req

/-- The part_000 generate-video handler. -/
def runGenerateVideoP0 (req : GenVideoRequest) : HandlerTrace :=
  runHandlerWith handlerLocalsP0 moduleScopeP0 req

/-! ## Job lifecycle and workspace cleanup (claim about exit paths) -/

/-- The awaited steps of the try block, in source order (both variants
share this order). -/
inductive StageName
  | writeSrt
  | resolveBg
  | downloadBg
  | trimBg
  | narration
  | muxAudio
  | burnSubs
deriving DecidableEq

/-- The fixed stage order of the handler. -/
def orderedStages : List StageName :=
  [.writeSrt, .resolveBg, .downloadBg, .trimBg, .narration, .muxAudio, .burnSubs]

/-- Events of one job, as the handler emits them. -/
inductive Event
  | mkdir
  | stageRun (s : StageName)
  | catchRemove
  | respondError
  | streamStart
  | streamFinish
  | graceTimerFire
  | timedRemove
  | streamAbort
deriving DecidableEq

/-- How the response streaming of the final file can go once it starts:
either the sink consumes the whole file and the completion event fires
(res finish in server.js, stream end in part_000), or the transfer aborts
mid-stream (client disconnect, read-stream error); in the aborted case no
completion event ever fires, and the try/catch has already exited, so no
handler code runs afterwards. -/
inductive StreamOutcome
  | completed
  | aborted
deriving DecidableEq

/-- The events after all stages resolved and streaming starts: on
completion the listener fires and a 5000 ms timer performs fs.remove(dir);
on a mid-stream abort nothing else run by the handler happens. -/
def streamEvents : StreamOutcome → List Event
  | .completed => [.streamStart, .streamFinish, .graceTimerFire, .timedRemove]
  | .aborted => [.streamStart, .streamAbort]

/-- Run the try block: each stage either resolves (continue) or rejects
(enter the catch block, which awaits fs.remove(dir) and then answers 500);
when every stage resolves the final file is streamed with the given
streaming outcome. -/
def runStages (ok : StageName → Bool) (stream : StreamOutcome) :
    List StageName → List Event
  | [] => streamEvents stream
  | s :: rest =>
    .stageRun s :: (if ok s then runStages ok stream rest else [.catchRemove, .respondError])

/-- The whole event list of one job: fs.ensureDir(dir) before the try
block, then the staged run. -/
def jobEvents (ok : StageName → Bool) (stream : StreamOutcome) : List Event :=
  .mkdir :: runStages ok stream orderedStages

/-- Effect of one event on workspace-directory existence. -/
def wsStep (b : Bool) (e : Event) : Bool :=
  match e with
  | .mkdir => true
  | .catchRemove => false
  | .timedRemove => false
  | _ => b

/-- Whether the workspace directory exists after a list of events. -/
def wsAfter (es : List Event) : Bool := es.foldl wsStep false

/-! ## Spec-modelled subtitle-builder contract -/

/-- The error taxonomy entry the spec assigns to the subtitle builder. -/
inductive SubtitleError
  | EmptyScript
deriving DecidableEq

/-- Modelled from the spec: section 4.1 requires the builder to fail with
EmptyScript when splitting yields zero non-empty trimmed lines, and to
produce the serialized track otherwise.  No such failure exists in the
source; this definition follows the spec words for comparison. -/
def specGenerateSRT (script : List Char) (dur : Nat) : Except SubtitleError (List Char) :=
  if linesOf script = [] then .error .EmptyScript else .ok (buildSRT script dur)

/-! ## Lemmas: decimal printing and parsing -/

theorem digitChar_toNat (d : Nat) : 48 ≤ (digitChar d).toNat ∧ (digitChar d).toNat ≤ 57 := by
  unfold digitChar
  split <;> decide

theorem digitVal_digitChar {d : Nat} (h : d < 10) : digitVal (digitChar d) = d := by
  interval_cases d <;> decide

theorem natDecAux_digits :
    ∀ f n, ∀ c ∈ natDecAux f n, 48 ≤ c.toNat ∧ c.toNat ≤ 57 := by
  intro f
  induction f with
  | zero => intro n c hc; simp [natDecAux] at hc
  | succ f ih =>
    intro n c hc
    by_cases h : n < 10
    · simp only [natDecAux, if_pos h, List.mem_singleton] at hc
      subst hc
      exact digitChar_toNat n
    · simp only [natDecAux, if_neg h, List.mem_append, List.mem_singleton] at hc
      rcases hc with hc | hc
      · exact ih _ c hc
      · subst hc
        exact digitChar_toNat _

theorem natDec_digits (n : Nat) : ∀ c ∈ natDec n, 48 ≤ c.toNat ∧ c.toNat ≤ 57 :=
  natDecAux_digits (n + 1) n

theorem padTwo_natDec_digits (n : Nat) :
    ∀ c ∈ padTwo (natDec n), 48 ≤ c.toNat ∧ c.toNat ≤ 57 := by
  intro c hc
  simp only [padTwo, List.mem_append, List.mem_replicate] at hc
  rcases hc with hc | hc
  · rw [hc.2]; decide
  · exact natDec_digits n c hc

theorem not_mem_padTwo_natDec {c : Char} (hc : c.toNat < 48 ∨ 57 < c.toNat) (n : Nat) :
    c ∉ padTwo (natDec n) := by
  intro h
  obtain ⟨h1, h2⟩ := padTwo_natDec_digits n c h
  rcases hc with hc | hc <;> omega

theorem decToNat_append_digit (l : List Char) (c : Char) :
    decToNat (l ++ [c]) = decToNat l * 10 + digitVal c := by
  simp [decToNat, List.foldl_append]

theorem decToNat_natDecAux : ∀ f n, n < f → decToNat (natDecAux f n) = n := by
  intro f
  induction f with
  | zero => intro n hn; omega
  | succ f ih =>
    intro n hn
    by_cases h : n < 10
    · simp only [natDecAux, if_pos h]
      show 0 * 10 + digitVal (digitChar n) = n
      rw [digitVal_digitChar h]
      omega
    · have hdiv : n / 10 < f := by omega
      simp only [natDecAux, if_neg h, decToNat_append_digit, ih _ hdiv,
        digitVal_digitChar (Nat.mod_lt n (by omega))]
      omega

theorem decToNat_natDec (n : Nat) : decToNat (natDec n) = n :=
  decToNat_natDecAux (n + 1) n (by omega)

theorem decToNat_replicate_zero (k : Nat) (l : List Char) :
    decToNat (List.replicate k '0' ++ l) = decToNat l := by
  induction k with
  | zero => rfl
  | succ k ih => simpa [decToNat, List.replicate_succ] using ih

theorem decToNat_padTwo (l : List Char) : decToNat (padTwo l) = decToNat l :=
  decToNat_replicate_zero _ l

theorem decToNat_padTwo_natDec (n : Nat) : decToNat (padTwo (natDec n)) = n := by
  rw [decToNat_padTwo, decToNat_natDec]

/-! ## Lemmas: timestamp parsing round-trip -/

theorem spanUntil_append (sep : Char) (a b : List Char) (ha : sep ∉ a) :
    spanUntil sep (a ++ sep :: b) = some (a, b) := by
  induction a with
  | nil => simp [spanUntil]
  | cons c cs ih =>
    have hc : ¬ c = sep := fun h => ha (h ▸ List.mem_cons_self c cs)
    have ha2 : sep ∉ cs := fun h => ha (List.mem_cons_of_mem c h)
    simp [spanUntil, hc, ih ha2]

theorem parseTime_fmt (t : Nat) : parseTime (fmt t) = some t := by
  have h1 : (':' : Char) ∉ padTwo (natDec (t / 3600)) :=
    not_mem_padTwo_natDec (by decide) _
  have h2 : (':' : Char) ∉ padTwo (natDec (t % 3600 / 60)) :=
    not_mem_padTwo_natDec (by decide) _
  have h3 : (',' : Char) ∉ padTwo (natDec (t % 60)) :=
    not_mem_padTwo_natDec (by decide) _
  unfold fmt parseTime
  rw [spanUntil_append ':' _ _ h1]
  simp only
  rw [spanUntil_append ':' _ _ h2]
  simp only
  rw [spanUntil_append ',' _ _ h3]
  simp only [if_pos rfl, decToNat_padTwo_natDec, if_true]
  congr 1
  omega

theorem fmt_chars (t : Nat) :
    ∀ c ∈ fmt t, (48 ≤ c.toNat ∧ c.toNat ≤ 57) ∨ c = ':' ∨ c = ',' := by
  intro c hc
  simp only [fmt, List.mem_append, List.mem_cons, List.mem_singleton] at hc
  rcases hc with hc | hc | hc | hc | hc | hc | hc | hc | hc
  · exact Or.inl (padTwo_natDec_digits _ c hc)
  · exact Or.inr (Or.inl hc)
  · exact Or.inl (padTwo_natDec_digits _ c hc)
  · exact Or.inr (Or.inl hc)
  · exact Or.inl (padTwo_natDec_digits _ c hc)
  · exact Or.inr (Or.inr hc)
  · rw [hc]; exact Or.inl (by decide)
  · rw [hc]; exact Or.inl (by decide)
  · simp at hc
    rw [hc]; exact Or.inl (by decide)

theorem space_not_mem_fmt (t : Nat) : (' ' : Char) ∉ fmt t := by
  intro h
  rcases fmt_chars t ' ' h with h1 | h1 | h1
  · revert h1; decide
  · exact absurd h1 (by decide)
  · exact absurd h1 (by decide)

theorem newline_not_mem_fmt (t : Nat) : ('\n' : Char) ∉ fmt t := by
  intro h
  rcases fmt_chars t '\n' h with h1 | h1 | h1
  · revert h1; decide
  · exact absurd h1 (by decide)
  · exact absurd h1 (by decide)

theorem parseTimeLine_timeLineOf (c : Cue) :
    parseTimeLine (timeLineOf c) = some (c.start, c.stop) := by
  unfold timeLineOf parseTimeLine
  rw [spanUntil_append ' ' _ _ (space_not_mem_fmt c.start)]
  simp [parseTime_fmt]

theorem newline_not_mem_timeLineOf (c : Cue) : ('\n' : Char) ∉ timeLineOf c := by
  intro h
  simp only [timeLineOf, List.mem_append, List.mem_cons] at h
  rcases h with h | h | h | h | h | h | h
  · exact newline_not_mem_fmt c.start h
  · exact absurd h (by decide)
  · exact absurd h (by decide)
  · exact absurd h (by decide)
  · exact absurd h (by decide)
  · exact absurd h (by decide)
  · exact newline_not_mem_fmt c.stop h

theorem newline_not_mem_natDec (n : Nat) : ('\n' : Char) ∉ natDec n := by
  intro h
  obtain ⟨h1, h2⟩ := natDec_digits n '\n' h
  have : ('\n' : Char).toNat = 10 := by decide
  omega

/-! ## Lemmas: line splitting -/

theorem splitNL_ne_nil : ∀ s, splitNL s ≠ [] := by
  intro s
  cases s with
  | nil => simp [splitNL]
  | cons c cs =>
    rcases h : splitNL cs with _ | ⟨l, ls⟩
    · simp [splitNL, h]
    · by_cases hc : c = '\n' <;> simp [splitNL, h, hc]

theorem splitNL_append (l r : List Char) (hl : ('\n' : Char) ∉ l) :
    splitNL (l ++ '\n' :: r) = l :: splitNL r := by
  induction l with
  | nil =>
    rcases h : splitNL r with _ | ⟨x, xs⟩
    · exact absurd h (splitNL_ne_nil r)
    · simp [splitNL, h]
  | cons c cs ih =>
    have hc : ¬ c = '\n' := fun h => hl (h ▸ List.mem_cons_self c cs)
    have hl2 : ('\n' : Char) ∉ cs := fun h => hl (List.mem_cons_of_mem c h)
    rw [List.cons_append, splitNL, ih hl2]
    simp [hc]

theorem splitNL_no_newline : ∀ s, ∀ l ∈ splitNL s, ('\n' : Char) ∉ l := by
  intro s
  induction s with
  | nil =>
    intro l hl
    simp only [splitNL, List.mem_singleton] at hl
    subst hl
    exact List.not_mem_nil _
  | cons c cs ih =>
    intro l hl
    rcases h : splitNL cs with _ | ⟨x, xs⟩
    · exact absurd h (splitNL_ne_nil cs)
    · have heq : splitNL (c :: cs) =
          if c = '\n' then [] :: x :: xs else (c :: x) :: xs := by
        rw [splitNL, h]
      rw [heq] at hl
      have hx : ('\n' : Char) ∉ x := ih x (h ▸ List.mem_cons_self x xs)
      have hxs : ∀ y ∈ xs, ('\n' : Char) ∉ y := fun y hy =>
        ih y (h ▸ List.mem_cons_of_mem x hy)
      by_cases hc : c = '\n'
      · rw [if_pos hc] at hl
        rcases hl with _ | ⟨_, hl⟩
        · exact List.not_mem_nil _
        · rcases hl with _ | ⟨_, hl⟩
          · exact hx
          · exact hxs l hl
      · rw [if_neg hc] at hl
        rcases hl with _ | ⟨_, hl⟩
        · intro hmem
          rcases hmem with _ | ⟨_, hmem⟩
          · exact hc rfl
          · exact hx hmem
        · exact hxs l hl

/-! ## Lemmas: trim and the line list -/

theorem mem_trim {c : Char} {l : List Char} (h : c ∈ trim l) : c ∈ l := by
  unfold trim at h
  rw [List.mem_reverse] at h
  have h2 := (List.dropWhile_sublist (l := (l.dropWhile isWS).reverse) (p := isWS)).mem h
  rw [List.mem_reverse] at h2
  exact (List.dropWhile_sublist (l := l) (p := isWS)).mem h2

theorem linesOf_no_newline (script : List Char) :
    ∀ l ∈ linesOf script, ('\n' : Char) ∉ l := by
  intro l hl hn
  unfold linesOf at hl
  rw [List.mem_filter] at hl
  obtain ⟨hl, _⟩ := hl
  rw [List.mem_map] at hl
  obtain ⟨l0, hl0, rfl⟩ := hl
  exact splitNL_no_newline script l0 hl0 (mem_trim hn)

/-! ## Lemmas: the cue loop -/

theorem cuesAux_length (p dur : Nat) : ∀ i ls, (cuesAux p dur i ls).length = ls.length := by
  intro i ls
  induction ls generalizing i with
  | nil => rfl
  | cons l ls ih => simp [cuesAux, ih]

theorem cuesAux_getElem? (p dur : Nat) :
    ∀ (ls : List (List Char)) (i k : Nat),
      (cuesAux p dur i ls)[k]? = ls[k]?.map (fun l => cueAt p dur (i + k) l) := by
  intro ls
  induction ls with
  | nil => intro i k; simp [cuesAux]
  | cons l ls ih =>
    intro i k
    cases k with
    | zero => simp [cuesAux]
    | succ k =>
      have harith : i + 1 + k = i + (k + 1) := by omega
      simp [cuesAux, ih (i + 1) k, harith]

theorem cuesAux_text_mem (p dur : Nat) :
    ∀ ls i c, c ∈ cuesAux p dur i ls → c.text ∈ ls := by
  intro ls
  induction ls with
  | nil => intro i c hc; simp [cuesAux] at hc
  | cons l ls ih =>
    intro i c hc
    rcases hc with _ | ⟨_, hc⟩
    · exact List.mem_cons_self _ _
    · exact List.mem_cons_of_mem _ (ih (i + 1) c hc)

theorem cueList_length (script : List Char) (dur : Nat) :
    (cueList script dur).length = (linesOf script).length :=
  cuesAux_length _ _ _ _

/-! ## Lemmas: serialization round-trip -/

theorem splitNL_cueBlock (c : Cue) (r : List Char) (ht : ('\n' : Char) ∉ c.text) :
    splitNL (cueBlock c ++ r) =
      natDec c.idx :: timeLineOf c :: c.text :: [] :: splitNL r := by
  have hshape : cueBlock c ++ r =
      natDec c.idx ++ '\n' :: (timeLineOf c ++ '\n' :: (c.text ++ '\n' :: ('\n' :: r))) := by
    simp [cueBlock, List.append_assoc]
  rw [hshape]
  rw [splitNL_append _ _ (newline_not_mem_natDec c.idx)]
  rw [splitNL_append _ _ (newline_not_mem_timeLineOf c)]
  rw [splitNL_append _ _ ht]
  have : ('\n' : Char) :: r = [] ++ '\n' :: r := rfl
  rw [this, splitNL_append [] r (List.not_mem_nil _)]

theorem parse_encode :
    ∀ cs : List Cue, (∀ c ∈ cs, ('\n' : Char) ∉ c.text) →
      parseCueBlocks (splitNL ((cs.map cueBlock).flatten)) = some cs := by
  intro cs
  induction cs with
  | nil => intro _; rfl
  | cons c cs ih =>
    intro h
    have htext : ('\n' : Char) ∉ c.text := h c (List.mem_cons_self c cs)
    have htail : ∀ x ∈ cs, ('\n' : Char) ∉ x.text := fun x hx =>
      h x (List.mem_cons_of_mem c hx)
    rw [List.map_cons, List.flatten_cons, splitNL_cueBlock c _ htext]
    rw [parseCueBlocks, parseTimeLine_timeLineOf, ih htail, decToNat_natDec]

/-! ## Lemmas: colon escaping -/

theorem escapeColons_eq_nil {p : List Char} (h : escapeColons p = []) : p = [] := by
  cases p with
  | nil => rfl
  | cons c cs => by_cases hc : c = ':' <;> simp [escapeColons, hc] at h

theorem escapeColons_head_ne_colon :
    ∀ (p : List Char) (c1 : Char) (r : List Char), escapeColons p = c1 :: r → c1 ≠ ':' := by
  intro p c1 r h
  cases p with
  | nil => exact absurd h (by simp [escapeColons])
  | cons c cs =>
    by_cases hc : c = ':'
    · simp only [escapeColons, if_pos hc, List.cons.injEq] at h
      intro hcc
      rw [← h.1] at hcc
      exact absurd hcc (by decide)
    · simp only [escapeColons, if_neg hc, List.cons.injEq] at h
      intro hcc
      exact hc (h.1.trans hcc)

theorem unescape_backslash_colon (x : List Char) :
    unescapeColons ('\\' :: ':' :: x) = ':' :: unescapeColons x := by
  rw [unescapeColons.eq_def]
  split
  · simp_all
  · next heq => rw [List.cons.injEq, List.cons.injEq] at heq; rw [heq.2.2]
  · next hexcl heq =>
    rw [List.cons.injEq] at heq
    exact (hexcl x heq.1.symm heq.2.symm).elim

theorem unescape_after_backslash (c1 : Char) (r : List Char) (h : ¬ c1 = ':') :
    unescapeColons ('\\' :: c1 :: r) = '\\' :: unescapeColons (c1 :: r) := by
  rw [unescapeColons.eq_def]
  split
  · simp_all
  · next heq => rw [List.cons.injEq, List.cons.injEq] at heq; exact absurd heq.2.1 h
  · next hexcl heq => rw [List.cons.injEq] at heq; rw [← heq.1, ← heq.2]

theorem unescape_cons_ne_backslash (c : Char) (x : List Char) (h : ¬ c = '\\') :
    unescapeColons (c :: x) = c :: unescapeColons x := by
  rw [unescapeColons.eq_def]
  split
  · simp_all
  · next heq => rw [List.cons.injEq] at heq; exact absurd heq.1 h
  · next hexcl heq => rw [List.cons.injEq] at heq; rw [← heq.1, ← heq.2]

theorem unescape_escape : ∀ p : List Char, unescapeColons (escapeColons p) = p := by
  intro p
  induction p with
  | nil => rfl
  | cons c cs ih =>
    by_cases hc : c = ':'
    · subst hc
      have hE : escapeColons (':' :: cs) = '\\' :: ':' :: escapeColons cs := by
        simp [escapeColons]
      rw [hE, unescape_backslash_colon, ih]
    · by_cases hb : c = '\\'
      · subst hb
        simp only [escapeColons, if_neg hc]
        rcases hE : escapeColons cs with _ | ⟨c1, r⟩
        · rw [escapeColons_eq_nil hE]
          rfl
        · have hc1 : ¬ c1 = ':' := escapeColons_head_ne_colon cs c1 r hE
          rw [unescape_after_backslash c1 r hc1, ← hE, ih]
      · simp only [escapeColons, if_neg hc]
        rw [unescape_cons_ne_backslash c _ hb, ih]

theorem escapeColons_length (p : List Char) :
    (escapeColons p).length = p.length + p.count ':' := by
  induction p with
  | nil => rfl
  | cons c cs ih =>
    by_cases hc : c = ':' <;>
      simp [escapeColons, hc, ih, List.count_cons] <;> omega

/-! ## Lemmas: job event traces -/

theorem foldl_wsStep_stageRuns (pre : List StageName) :
    ∀ b, (pre.map Event.stageRun).foldl wsStep b = b := by
  induction pre with
  | nil => intro b; rfl
  | cons s rest ih =>
    intro b
    simp only [List.map_cons, List.foldl_cons]
    exact ih b

theorem wsAfter_fail_trace (pre : List StageName) (sf : StageName) :
    wsAfter (Event.mkdir :: (pre.map Event.stageRun ++
      [Event.stageRun sf, Event.catchRemove, Event.respondError])) = false := by
  unfold wsAfter
  rw [List.foldl_cons, List.foldl_append, foldl_wsStep_stageRuns]
  rfl

theorem wsAfter_completed_trace (pre : List StageName) :
    wsAfter (Event.mkdir :: (pre.map Event.stageRun ++
      [Event.streamStart, Event.streamFinish, Event.graceTimerFire,
        Event.timedRemove])) = false := by
  unfold wsAfter
  rw [List.foldl_cons, List.foldl_append, foldl_wsStep_stageRuns]
  rfl

theorem wsAfter_aborted_trace (pre : List StageName) :
    wsAfter (Event.mkdir :: (pre.map Event.stageRun ++
      [Event.streamStart, Event.streamAbort])) = true := by
  unfold wsAfter
  rw [List.foldl_cons, List.foldl_append, foldl_wsStep_stageRuns]
  rfl

theorem runStages_all_ok (ok : StageName → Bool) (stream : StreamOutcome) :
    ∀ stages, (∀ s ∈ stages, ok s = true) →
      runStages ok stream stages = stages.map Event.stageRun ++ streamEvents stream := by
  intro stages
  induction stages with
  | nil => intro _; rfl
  | cons s rest ih =>
    intro h
    have hs : ok s = true := h s (List.mem_cons_self s rest)
    simp [runStages, hs, ih (fun x hx => h x (List.mem_cons_of_mem s hx))]

theorem runStages_fail (ok : StageName → Bool) (stream : StreamOutcome) :
    ∀ stages, (∃ s ∈ stages, ok s = false) →
      ∃ (pre : List StageName) (sf : StageName), ok sf = false ∧
        runStages ok stream stages = pre.map Event.stageRun ++
          [Event.stageRun sf, Event.catchRemove, Event.respondError] := by
  intro stages
  induction stages with
  | nil =>
    rintro ⟨s, hs, _⟩
    exact absurd hs (List.not_mem_nil s)
  | cons s rest ih =>
    rintro ⟨x, hx, hxf⟩
    rcases Bool.eq_false_or_eq_true (ok s) with h | h
    · rw [List.mem_cons] at hx
      rcases hx with rfl | hxr
      · rw [hxf] at h
        exact Bool.noConfusion h
      · obtain ⟨pre, sf, hsf, heq⟩ := ih ⟨x, hxr, hxf⟩
        refine ⟨s :: pre, sf, hsf, ?_⟩
        simp [runStages, h, heq]
    · refine ⟨[], s, h, ?_⟩
      simp [runStages, h]

/-! ## Lemmas: cue invariants -/

theorem cuesAux_chain (p dur : Nat) :
    ∀ (ls : List (List Char)) (i : Nat), (i + ls.length - 1) * p < dur →
      List.Chain' (fun a b => a.stop = b.start) (cuesAux p dur i ls) := by
  intro ls
  induction ls with
  | nil => intro i _; exact List.chain'_nil
  | cons l ls ih =>
    intro i h
    cases ls with
    | nil => exact List.chain'_singleton _
    | cons l2 ls2 =>
      have hlen : i + (l :: l2 :: ls2).length - 1 = i + 1 + ls2.length := by
        simp
        omega
      rw [hlen] at h
      rw [cuesAux, cuesAux, List.chain'_cons]
      constructor
      · show min (i * p + p) dur = (i + 1) * p
        have h1 : (i + 1) * p ≤ (i + 1 + ls2.length) * p :=
          mul_le_mul_right' (by omega) p
        rw [Nat.succ_mul] at h1
        rw [Nat.succ_mul]
        exact Nat.min_eq_left (by omega)
      · have h2 : (i + 1) + (l2 :: ls2).length - 1 = i + 1 + ls2.length := by
          simp
        exact ih (i + 1) (by rw [h2]; exact h)

theorem cuesAux_bounds (p dur : Nat) (hp : 2 ≤ p) :
    ∀ (ls : List (List Char)) (i : Nat) (c : Cue), c ∈ cuesAux p dur i ls →
      (i + ls.length - 1) * p < dur → c.start < c.stop ∧ c.stop ≤ dur := by
  intro ls
  induction ls with
  | nil => intro i c hc _; simp [cuesAux] at hc
  | cons l ls ih =>
    intro i c hc h
    have hlen : i + (l :: ls).length - 1 = i + ls.length := by simp
    rw [hlen] at h
    have hi : i * p ≤ (i + ls.length) * p := mul_le_mul_right' (by omega) p
    rcases hc with _ | ⟨_, hc⟩
    · constructor
      · show i * p < min (i * p + p) dur
        exact lt_min (by omega) (by omega)
      · exact min_le_right _ _
    · refine ih (i + 1) c hc ?_
      have h2 : (i + 1) + ls.length - 1 = i + ls.length := by omega
      rw [h2]
      exact h

/-! ## Lemmas: the fallback URL -/

theorem FALLBACK_ne_nil : FALLBACK ≠ [] := by decide

theorem some_FALLBACK_ne_some_nil : (some FALLBACK : Option (List Char)) ≠ some [] := by
  decide

/-! ## The claims -/

/-- C1: for every request to POST /generate-video, regardless of the
request body, the handler raises a ReferenceError when evaluating the
undefined identifier style before the background download begins, so the
job always reaches the catch branch: the workspace directory is removed
and, no headers having been sent, a status-500 json error with a message
field is returned; no video is ever streamed.  This holds for both server
variants. -/
theorem c1_generate_video_always_errors (req : GenVideoRequest) :
    runGenerateVideo req =
      { outcome := .errorJson 500 true, workspaceRemoved := true, downloadStarted := false,
        headersSentAtError := false, thrown := some (.referenceError "style") }
  ∧ runGenerateVideoP0 req =
      { outcome := .errorJson 500 true, workspaceRemoved := true, downloadStarted := false,
        headersSentAtError := false, thrown := some (.referenceError "style") }
  ∧ (runGenerateVideo req).outcome ≠ HandlerOutcome.videoStream := by
  refine ⟨rfl, rfl, ?_⟩
  intro hcon
  exact HandlerOutcome.noConfusion hcon

/-- C2, counterexample: with the three-line script a, b, c and duration 3
the builder computes cues (0,2), (2,3), (4,3): the third cue starts after
the second one ends (so the cues are not contiguous) and has start not
less than stop, refuting the claimed invariant for all durations above
zero. -/
theorem c2_counterexample :
    (cueList "a\nb\nc".data 3).map (fun c => (c.start, c.stop)) = [(0, 2), (2, 3), (4, 3)]
  ∧ ¬ List.Chain' (fun a b => a.stop = b.start) (cueList "a\nb\nc".data 3)
  ∧ ¬ (∀ c ∈ cueList "a\nb\nc".data 3, c.start < c.stop) := by
  refine ⟨by decide, ?_, by decide⟩
  intro hch
  rw [(by decide : cueList "a\nb\nc".data 3 =
    [⟨1, 0, 2, ['a']⟩, ⟨2, 2, 3, ['b']⟩, ⟨3, 4, 3, ['c']⟩])] at hch
  rw [List.chain'_cons, List.chain'_cons] at hch
  exact absurd hch.2.1 (by decide)

/-- C2, amended: for every script with at least one non-empty trimmed line
and every duration above zero such that the uniform span times one less
than the line count stays below the duration, the track has as many cues
as non-empty lines, consecutive cues are contiguous, every cue has start
below stop, and every stop is at most the duration (starts are naturals,
hence at least zero). -/
theorem c2_amended (script : List Char) (dur : Nat) (hd : 0 < dur)
    (hne : linesOf script ≠ [])
    (hfit : ((linesOf script).length - 1) *
      perLine dur (linesOf script).length < dur) :
    (cueList script dur).length = (linesOf script).length
  ∧ List.Chain' (fun a b => a.stop = b.start) (cueList script dur)
  ∧ ∀ c ∈ cueList script dur, c.start < c.stop ∧ c.stop ≤ dur := by
  have hp : 2 ≤ perLine dur (linesOf script).length := le_max_left 2 _
  refine ⟨cueList_length script dur, ?_, ?_⟩
  · exact cuesAux_chain _ dur (linesOf script) 0 (by simpa using hfit)
  · intro c hc
    exact cuesAux_bounds _ dur hp (linesOf script) 0 c hc (by simpa using hfit)

/-- C2, witness for the amended theorem at the two-line script of the spec
scenario with duration 10. -/
theorem c2_amended_witness :
    (0 < 10 ∧ linesOf "Hello world.\nThis is a test.".data ≠ [] ∧
      ((linesOf "Hello world.\nThis is a test.".data).length - 1) *
        perLine 10 (linesOf "Hello world.\nThis is a test.".data).length < 10)
  ∧ ((cueList "Hello world.\nThis is a test.".data 10).length =
        (linesOf "Hello world.\nThis is a test.".data).length
    ∧ List.Chain' (fun a b => a.stop = b.start)
        (cueList "Hello world.\nThis is a test.".data 10)
    ∧ ∀ c ∈ cueList "Hello world.\nThis is a test.".data 10,
        c.start < c.stop ∧ c.stop ≤ 10) :=
  ⟨⟨by decide, by decide, by decide⟩,
    c2_amended _ 10 (by decide) (by decide) (by decide)⟩

/-- C3, counterexample: when every stage succeeds but the response
streaming aborts after it starts (client disconnect, read-stream error),
no completion event fires, the catch block is no longer active, and the
workspace directory survives the whole job trace even though the job is
over: removal on every exit path, and the equivalence of workspace
existence with being in flight, both fail. -/
theorem c3_counterexample :
    wsAfter (jobEvents (fun _ => true) StreamOutcome.aborted) = true
  ∧ Event.streamStart ∈ jobEvents (fun _ => true) StreamOutcome.aborted
  ∧ Event.catchRemove ∉ jobEvents (fun _ => true) StreamOutcome.aborted
  ∧ Event.timedRemove ∉ jobEvents (fun _ => true) StreamOutcome.aborted := by
  refine ⟨by decide, by decide, by decide, by decide⟩

/-- C3, amended: the workspace directory is removed on the exit paths the
handler observes.  When any stage of the try block rejects, the catch
block removes it immediately after the failing stage and answers the
error, and afterwards the directory is gone; when every stage succeeds
and the stream completes, the completion listener and the 5000 ms grace
timer remove it.  But when the streaming aborts after it starts, the
trace ends with no removal event and the directory remains on disk, so a
workspace directory existing on disk does not imply its job is still in
flight. -/
theorem c3_amended (ok : StageName → Bool) (stream : StreamOutcome) :
    ((∃ s ∈ orderedStages, ok s = false) →
      ∃ (pre : List StageName) (sf : StageName), ok sf = false ∧
        jobEvents ok stream = Event.mkdir :: (pre.map Event.stageRun ++
          [Event.stageRun sf, Event.catchRemove, Event.respondError])
      ∧ wsAfter (jobEvents ok stream) = false)
  ∧ ((∀ s ∈ orderedStages, ok s = true) →
      jobEvents ok StreamOutcome.completed = Event.mkdir ::
        (orderedStages.map Event.stageRun ++
          [Event.streamStart, Event.streamFinish, Event.graceTimerFire, Event.timedRemove])
      ∧ wsAfter (jobEvents ok StreamOutcome.completed) = false)
  ∧ ((∀ s ∈ orderedStages, ok s = true) →
      jobEvents ok StreamOutcome.aborted = Event.mkdir ::
        (orderedStages.map Event.stageRun ++ [Event.streamStart, Event.streamAbort])
      ∧ wsAfter (jobEvents ok StreamOutcome.aborted) = true) := by
  refine ⟨?_, ?_, ?_⟩
  · intro h
    obtain ⟨pre, sf, hsf, heq⟩ := runStages_fail ok stream orderedStages h
    have hje : jobEvents ok stream = Event.mkdir :: (pre.map Event.stageRun ++
        [Event.stageRun sf, Event.catchRemove, Event.respondError]) := by
      unfold jobEvents
      rw [heq]
    exact ⟨pre, sf, hsf, hje, by rw [hje]; exact wsAfter_fail_trace pre sf⟩
  · intro h
    have hje : jobEvents ok StreamOutcome.completed = Event.mkdir ::
        (orderedStages.map Event.stageRun ++
          [Event.streamStart, Event.streamFinish, Event.graceTimerFire,
            Event.timedRemove]) := by
      unfold jobEvents
      rw [runStages_all_ok ok StreamOutcome.completed orderedStages h]
      rfl
    exact ⟨hje, by rw [hje]; exact wsAfter_completed_trace orderedStages⟩
  · intro h
    have hje : jobEvents ok StreamOutcome.aborted = Event.mkdir ::
        (orderedStages.map Event.stageRun ++ [Event.streamStart, Event.streamAbort]) := by
      unfold jobEvents
      rw [runStages_all_ok ok StreamOutcome.aborted orderedStages h]
      rfl
    exact ⟨hje, by rw [hje]; exact wsAfter_aborted_trace orderedStages⟩

/-- C4, counterexample: when the stock-footage service responds
successfully with an empty videos array, the part_000 resolver
fetchPexelsVideo returns null (none) rather than the fallback URL,
refuting the claim that the resolver never returns a null or absent
value. -/
theorem c4_counterexample :
    fetchPexelsVideo "nature".data (PexelsResult.ok []) = none := by
  decide

/-- C4, amended: getBg (server.js) never raises and always returns a
non-empty URL, either the fallback or the resolved first link;
fetchPexelsVideo (part_000) also never raises and never returns an empty
string, but it returns null exactly when the service responds successfully
without a truthy first link (empty result array, empty file list, or a
falsy link), the fallback being returned only when the request throws. -/
theorem c4_amended (style q : List Char) (r : PexelsResult) :
    getBg style r ≠ []
  ∧ (getBg style r = FALLBACK ∨ some (getBg style r) = firstLink (videosOf r))
  ∧ fetchPexelsVideo q r ≠ some []
  ∧ (fetchPexelsVideo q r = none ↔
      ∃ vs, r = PexelsResult.ok vs ∧ jsTruthyStr (firstLink vs) = false) := by
  rcases r with _ | _ | videos
  · refine ⟨FALLBACK_ne_nil, Or.inl rfl, some_FALLBACK_ne_some_nil, ?_⟩
    constructor
    · intro h; exact Option.noConfusion h
    · rintro ⟨vs, hvs, _⟩; exact PexelsResult.noConfusion hvs
  · refine ⟨FALLBACK_ne_nil, Or.inl rfl, some_FALLBACK_ne_some_nil, ?_⟩
    constructor
    · intro h; exact Option.noConfusion h
    · rintro ⟨vs, hvs, _⟩; exact PexelsResult.noConfusion hvs
  · rcases hT : jsTruthyStr (firstLink videos) with _ | _
    · refine ⟨?_, Or.inl ?_, ?_, ?_⟩
      · show (if jsTruthyStr (firstLink videos) then (firstLink videos).getD [] else FALLBACK) ≠ []
        rw [hT]
        exact FALLBACK_ne_nil
      · show (if jsTruthyStr (firstLink videos) then (firstLink videos).getD [] else FALLBACK) = FALLBACK
        rw [hT]
        exact if_neg (by decide)
      · show (if jsTruthyStr (firstLink videos) then firstLink videos else none) ≠ some []
        rw [hT]
        intro h
        exact Option.noConfusion h
      · constructor
        · intro _; exact ⟨videos, rfl, hT⟩
        · intro _
          show (if jsTruthyStr (firstLink videos) then firstLink videos else none) = none
          rw [hT]
          exact if_neg (by decide)
    · rcases hL : firstLink videos with _ | l
      · rw [hL] at hT
        exact absurd hT (by decide)
      · have hT2 : l.isEmpty = false := by
          rw [hL] at hT
          simp only [jsTruthyStr, Bool.not_eq_true'] at hT
          exact hT
        have hlne : l ≠ [] := by
          intro hnil
          rw [hnil] at hT2
          exact Bool.noConfusion hT2
        refine ⟨?_, Or.inr ?_, ?_, ?_⟩
        · show (if jsTruthyStr (firstLink videos) then (firstLink videos).getD [] else FALLBACK) ≠ []
          rw [hT, if_pos rfl, hL]
          exact hlne
        · show some (if jsTruthyStr (firstLink videos) then (firstLink videos).getD [] else FALLBACK) =
            firstLink videos
          rw [hT, if_pos rfl, hL]
          rfl
        · show (if jsTruthyStr (firstLink videos) then firstLink videos else none) ≠ some []
          rw [hT, if_pos rfl, hL]
          intro h
          exact hlne (Option.some.inj h)
        · constructor
          · intro h
            have h2 : (if jsTruthyStr (firstLink videos) then firstLink videos else none) = none := h
            rw [hT, if_pos rfl, hL] at h2
            exact Option.noConfusion h2
          · rintro ⟨vs, hvs, hfalse⟩
            rw [(PexelsResult.ok.inj hvs : videos = vs)] at hT
            rw [hfalse] at hT
            exact absurd hT (by decide)

/-- C5, counterexample: on the empty script the source builder returns the
empty serialized track instead of failing; the spec-modelled builder
required the EmptyScript failure there, so the claim fails on the code. -/
theorem c5_counterexample :
    buildSRT "".data 10 = []
  ∧ specGenerateSRT "".data 10 = Except.error SubtitleError.EmptyScript := by
  exact ⟨rfl, rfl⟩

/-- C5, amended: for every script whose split-and-trim yields zero
non-empty lines, the source builder does not fail: it returns the empty
cue list and the empty serialized track, whereas the spec-modelled
contract would fail with EmptyScript. -/
theorem c5_amended (script : List Char) (dur : Nat) (h : linesOf script = []) :
    buildSRT script dur = [] ∧ cueList script dur = []
  ∧ specGenerateSRT script dur = Except.error SubtitleError.EmptyScript := by
  have hc : cueList script dur = [] := by
    unfold cueList
    rw [h]
    rfl
  refine ⟨?_, hc, ?_⟩
  · unfold buildSRT
    rw [hc]
    rfl
  · unfold specGenerateSRT
    rw [if_pos h]

/-- C5, witness for the amended theorem at a whitespace-only script. -/
theorem c5_amended_witness :
    linesOf "  \n\n ".data = []
  ∧ (buildSRT "  \n\n ".data 10 = [] ∧ cueList "  \n\n ".data 10 = []
    ∧ specGenerateSRT "  \n\n ".data 10 = Except.error SubtitleError.EmptyScript) :=
  ⟨by decide, c5_amended _ 10 (by decide)⟩

/-- C6, counterexample: in part_000, when the platform speech command
errors the narration step rejects and so fails the job, and on a
non-darwin platform the step writes a fixed text placeholder rather than
a duration-sized zero-amplitude waveform; both refute the claim for the
part_000 variant. -/
theorem c6_counterexample :
    generateTTS Platform.darwin "Hello".data "Female".data true = Except.error ()
  ∧ generateTTS Platform.other "Hello".data "Calm".data false =
      Except.ok (TTSFile.textFile "TTS not supported on this OS\n".data) := by
  exact ⟨rfl, rfl⟩

/-- C6, amended: the server.js narration step always writes the silent
placeholder: a zero-amplitude buffer whose byte length is exactly the
requested duration times thirty-two thousand, so it never fails the job;
the part_000 generateTTS is the variant the counterexample refutes. -/
theorem c6_amended (d : Nat) :
    (silenceBuffer d).length = d * 32000 ∧ ∀ b ∈ silenceBuffer d, b = 0 := by
  constructor
  · simp only [silenceBuffer, List.length_replicate]
    omega
  · intro b hb
    exact List.eq_of_mem_replicate hb

/-- C7: the filter argument of the burn-subtitles stage escapes each colon
of the subtitle path exactly once: the escaped path maps every colon to a
backslash-colon pair and leaves every other character unchanged, the
escaping is reversible, and the length grows by exactly the number of
colons. -/
theorem c7_colon_escaping (path : List Char) :
    escapeColons path = path.flatMap (fun c => if c = ':' then ['\\', ':'] else [c])
  ∧ unescapeColons (escapeColons path) = path
  ∧ (escapeColons path).length = path.length + path.count ':' := by
  refine ⟨?_, unescape_escape path, escapeColons_length path⟩
  induction path with
  | nil => rfl
  | cons c cs ih => by_cases hc : c = ':' <;> simp [escapeColons, hc, ih]

/-- C8: for the script of two lines Hello world. and This is a test. with
duration 10, the builder produces exactly two cues, the first spanning 0
to 5 and the second 5 to 10, and serializes them accordingly. -/
theorem c8_scenario :
    cueList "Hello world.\nThis is a test.".data 10 =
      [⟨1, 0, 5, "Hello world.".data⟩, ⟨2, 5, 10, "This is a test.".data⟩]
  ∧ buildSRT "Hello world.\nThis is a test.".data 10 =
      ("1\n00:00:00,000 --> 00:00:05,000\nHello world.\n\n" ++
        "2\n00:00:05,000 --> 00:00:10,000\nThis is a test.\n\n").data := by
  exact ⟨by decide, by decide⟩

/-- C9: serialization of a subtitle track round-trips: for every script
with at least one non-empty line and every positive whole-second duration,
parsing the serialized timed-text output recovers exactly the cue indices,
start and stop offsets, and text lines the builder computed. -/
theorem c9_srt_roundtrip (script : List Char) (dur : Nat) (hd : 0 < dur)
    (hne : linesOf script ≠ []) :
    parseSRT (buildSRT script dur) = some (cueList script dur) := by
  unfold parseSRT buildSRT
  apply parse_encode
  intro c hc
  exact linesOf_no_newline script c.text (cuesAux_text_mem _ _ _ _ c hc)

/-- C9, witness at the spec scenario script with duration 10. -/
theorem c9_srt_roundtrip_witness :
    (0 < 10 ∧ linesOf "Hello world.\nThis is a test.".data ≠ [])
  ∧ parseSRT (buildSRT "Hello world.\nThis is a test.".data 10) =
      some (cueList "Hello world.\nThis is a test.".data 10) :=
  ⟨⟨by decide, by decide⟩, c9_srt_roundtrip _ 10 (by decide) (by decide)⟩

/-- C10: in both server variants the audio-mux stage writes its output to
the very path it reads its video input from (video.mp4 in server.js,
temp.mp4 in part_000), not to a distinct output asset such as the final
file. -/
theorem c10_mux_in_place (dir : List Char) :
    (muxCall dir).output = (muxCall dir).videoInput
  ∧ (muxCall dir).output = (pFiles dir).vid
  ∧ (muxCall dir).output ≠ (pFiles dir).final
  ∧ (muxCallP0 dir).output = (muxCallP0 dir).videoInput
  ∧ (muxCallP0 dir).output ≠ (p0Files dir).final := by
  refine ⟨rfl, rfl, ?_, rfl, ?_⟩
  · intro h
    have h2 := List.append_cancel_left h
    exact absurd h2 (by decide)
  · intro h
    have h2 := List.append_cancel_left h
    exact absurd h2 (by decide)

end GVG
